import Mathlib

/-!
Verification of the `otti` OTP manager against its natural-language
specification.  The Rust sources are shallowly embedded: pure functions
become Lean functions over `Nat` bytes (`List Nat`), fallible code returns
`Except`/`Option`, and the external cryptographic / serialization crates
(HMAC, Argon2, XChaCha20-Poly1305, zlib, msgpack, AES, PBKDF2, serde_json)
are abstracted as structures of function parameters whose standard
correctness laws appear as explicit hypotheses.
-/

set_option maxRecDepth 10000

namespace Otti

/-! ## Shared account data model (otti-core/src/lib.rs) -/

/-- Embeds `otti_core::Otp` (counter/window/period are `u64` in the source,
modelled as `Nat`). -/
inductive Otp where
  | Hotp (counter : Nat)
  | Totp (window : Nat)
  | Steam (period : Nat)
deriving DecidableEq

/-- Embeds `otti_core::Algorithm`. -/
inductive Algorithm where
  | Sha1
  | Sha256
  | Sha512
deriving DecidableEq

/-- Embeds `otti_core::Metadata`. -/
structure Metadata where
  tags : List String
deriving DecidableEq

/-- Embeds `otti_core::Account`.  The `secret` holds the raw bytes of the
`Key` secret holder, so equality of accounts compares secrets by bytes.
`extras` embeds the `BTreeMap<String, Vec<u8>>` as a key-sorted association
list. -/
structure Account where
  label : String
  secret : List Nat
  digits : Nat
  otp : Otp
  algorithm : Algorithm
  issuer : Option String
  meta : Metadata
  extras : List (String × List Nat)
deriving DecidableEq

end Otti

namespace Gen

/-! ## OTP generator (otti-gen/src/lib.rs)

The HMAC primitive from the `hmac`/`sha1`/`sha2` crates is abstracted as a
function `hmac : key → message → mac bytes`; everything after the HMAC call
is embedded from the source. -/

/-- Embeds `STEAM_CHARS` from otti-gen/src/lib.rs. -/
def STEAM_CHARS : List Char :=
  ['2', '3', '4', '5', '6', '7', '8', '9', 'B', 'C', 'D', 'F', 'G', 'H', 'J',
   'K', 'M', 'N', 'P', 'Q', 'R', 'T', 'V', 'W', 'X', 'Y']

/-- Big-endian 8-byte encoding of a `u64` counter (`counter.to_be_bytes()`). -/
def u64BeBytes (n : Nat) : List Nat :=
  [n / 2 ^ 56 % 256, n / 2 ^ 48 % 256, n / 2 ^ 40 % 256, n / 2 ^ 32 % 256,
   n / 2 ^ 24 % 256, n / 2 ^ 16 % 256, n / 2 ^ 8 % 256, n % 256]

/-- Embeds `fn mac<D>`: the first 20 bytes of the HMAC over the big-endian
counter are kept, regardless of the digest's output size. -/
def mac (hmac : List Nat → List Nat → List Nat) (key : List Nat)
    (counter : Nat) : List Nat :=
  (hmac key (u64BeBytes counter)).take 20

/-- Embeds `fn digit`: RFC 4226 dynamic truncation followed by the modular
reduction to `digits` decimal digits.  Out-of-range indices default to `0`;
in the source the list always has exactly 20 entries. -/
def digit (bytes : List Nat) (digits : Nat) : Nat :=
  let offset := bytes.getD 19 0 &&& 0xf
  let binCode :=
    ((bytes.getD offset 0 &&& 0x7f) <<< 24) |||
    (bytes.getD (offset + 1) 0 <<< 16) |||
    (bytes.getD (offset + 2) 0 <<< 8) |||
    bytes.getD (offset + 3) 0
  binCode % 10 ^ digits

/-- Embeds `fn generate_hotp<D>` (the HMAC is a parameter). -/
def generate_hotp (hmac : List Nat → List Nat → List Nat) (key : List Nat)
    (counter : Nat) (digits : Nat) : Nat :=
  digit (mac hmac key counter) digits

/-- The character-emitting loop of `fn generate_steam`: `digits` times, emit
`STEAM_CHARS[code % 26]` and divide `code` by 26. -/
def steamCode : Nat → Nat → List Char
  | 0, _ => []
  | d + 1, code => STEAM_CHARS.getD (code % STEAM_CHARS.length) '?' ::
      steamCode d (code / STEAM_CHARS.length)

/-- Embeds `fn generate_steam<D>` with the TOTP counter
(`time / period`) passed explicitly: the starting integer is the result of
`generate_totp`, i.e. `generate_hotp` at that counter. -/
def generate_steam (hmac : List Nat → List Nat → List Nat) (key : List Nat)
    (counter : Nat) (digits : Nat) : List Char :=
  steamCode digits (generate_hotp hmac key counter digits)

/-- Modelled from the spec's words for claims C4/C5: dynamic truncation reads
a big-endian 32-bit integer at `offset = mac[19] & 0x0F` and masks the high
bit (for a 32-bit value, masking bit 31 is reduction mod `2^31`). -/
def dynamicTruncationSpec (m : List Nat) : Nat :=
  let offset := m.getD 19 0 &&& 0xf
  (m.getD offset 0 * 2 ^ 24 + m.getD (offset + 1) 0 * 2 ^ 16 +
   m.getD (offset + 2) 0 * 2 ^ 8 + m.getD (offset + 3) 0) % 2 ^ 31

/-- The 20-byte fixture of the source's `digit` unit test and of the spec's
concrete scenario (a). -/
def fixtureMac : List Nat :=
  [0x1f, 0x86, 0x98, 0x69, 0x0e, 0x02, 0xca, 0x16, 0x61, 0x85,
   0x50, 0xef, 0x7f, 0x19, 0xda, 0x8e, 0x94, 0x5b, 0x55, 0x5a]

/-- A constant HMAC returning the fixture bytes, used to evaluate the
generator pipeline on a concrete input. -/
def fixtureHmac : List Nat → List Nat → List Nat := fun _ _ => fixtureMac

end Gen

namespace Store

/-! ## Native encrypted store (otti-store/src/lib.rs)

The external crates (`rmp_serde`, `flate2`, `orion`) are abstracted as a
`StorePrims` structure; the pipeline of `open`/`seal`/`decrypt`/`encrypt`/
`read_version`/`write_version` and its error mapping are embedded from the
source.  A store file is a `List Nat` of bytes; on-disk I/O is elided by
passing the byte list directly. -/

/-- Embeds `enum Version`: only `V1` exists. -/
inductive Version where
  | V1
deriving DecidableEq

/-- Embeds `enum Error` of otti-store (`HomefolderNotFound` omitted: path
discovery is out of scope). -/
inductive StoreError where
  | UnknownVersion (v : Nat)
  | UnsupportedVersion (v : Version)
  | Io
  | Encode
  | Decode
  | Crypto
  | InvalidPassword
deriving DecidableEq

/-- Embeds `struct EncryptedFile`. -/
structure EncryptedFile where
  salt : List Nat
  iterations : Nat
  memory : Nat
  data : List Nat
deriving DecidableEq

/-- Abstraction of the external primitives used by the store:
message-pack (`rmp_serde`), zlib (`flate2`) and Argon2i +
XChaCha20-Poly1305 (`orion`).  `passwordOk`/`saltOk` model
`Password::from_slice`/`Salt::from_slice` validation. -/
structure StorePrims where
  encodeAccounts : List Otti.Account → Option (List Nat)
  decodeAccounts : List Nat → Option (List Otti.Account)
  encodeFile : EncryptedFile → List Nat
  decodeFile : List Nat → Option EncryptedFile
  compress : List Nat → Option (List Nat)
  decompress : List Nat → Option (List Nat)
  passwordOk : List Nat → Bool
  saltOk : List Nat → Bool
  deriveKey : List Nat → List Nat → Nat → Nat → Option (List Nat)
  aeadSeal : List Nat → List Nat → Option (List Nat)
  aeadOpen : List Nat → List Nat → Option (List Nat)

/-- Embeds `impl TryFrom<u16> for Version`. -/
def versionTryFrom (v : Nat) : Except StoreError Version :=
  if v = 1 then .ok .V1 else .error (.UnknownVersion v)

/-- Embeds `fn read_version`: two little-endian bytes; a truncated read is
an I/O error. -/
def readVersion (bytes : List Nat) : Except StoreError Version :=
  match bytes with
  | b0 :: b1 :: _ => versionTryFrom (b0 + 256 * b1)
  | _ => .error .Io

/-- Embeds `fn decrypt`: password / salt validation and key derivation
failures surface as `Crypto`; only a failed `aead::open` becomes
`InvalidPassword`. -/
def decryptFile (P : StorePrims) (e : EncryptedFile) (password : List Nat) :
    Except StoreError (List Nat) :=
  if !P.passwordOk password then .error .Crypto
  else if !P.saltOk e.salt then .error .Crypto
  else match P.deriveKey password e.salt e.iterations e.memory with
  | none => .error .Crypto
  | some key =>
    match P.aeadOpen key e.data with
    | none => .error .InvalidPassword
    | some d => .ok d

/-- Embeds `fn encrypt`: the fresh salt (`Salt::default()`, 16 random
bytes) is passed explicitly; iterations = 3, memory = `1 << 16`. -/
def encryptFile (P : StorePrims) (data password salt : List Nat) :
    Except StoreError EncryptedFile :=
  if !P.passwordOk password then .error .Crypto
  else match P.deriveKey password salt 3 (1 <<< 16) with
  | none => .error .Crypto
  | some key =>
    match P.aeadSeal key data with
    | none => .error .Crypto
    | some sealed => .ok ⟨salt, 3, 1 <<< 16, sealed⟩

/-- Embeds `fn seal`: msgpack-encode, compress, encrypt, then write the
version header `u16_le(1) = [1, 0]` followed by the msgpack-encoded
`EncryptedFile`. -/
def storeSeal (P : StorePrims) (accounts : List Otti.Account)
    (password salt : List Nat) : Except StoreError (List Nat) :=
  match P.encodeAccounts accounts with
  | none => .error .Encode
  | some data =>
    match P.compress data with
    | none => .error .Io
    | some cdata =>
      match encryptFile P cdata password salt with
      | .error err => .error err
      | .ok ef => .ok ([1, 0] ++ P.encodeFile ef)

/-- Embeds `fn open`: read the version header, decode the
`EncryptedFile`, decrypt, decompress, decode the account list.  Error
mapping follows the source: decode failures are `Decode`, decompression
failures are `Io`, and `decrypt` maps as in `decryptFile`. -/
def storeOpen (P : StorePrims) (file : List Nat) (password : List Nat) :
    Except StoreError (List Otti.Account) :=
  match readVersion file with
  | .error err => .error err
  | .ok v =>
    if v ≠ Version.V1 then .error (.UnsupportedVersion v)
    else match P.decodeFile (file.drop 2) with
    | none => .error .Decode
    | some ef =>
      match decryptFile P ef password with
      | .error err => .error err
      | .ok data =>
        match P.decompress data with
        | none => .error .Io
        | some plain =>
          match P.decodeAccounts plain with
          | none => .error .Decode
          | some accounts => .ok accounts

/-- A simple byte encoding of `EncryptedFile`, used to instantiate the
msgpack abstraction in witnesses:
`[salt.length] ++ salt ++ [iterations, memory] ++ data`. -/
def encFileBytes (e : EncryptedFile) : List Nat :=
  e.salt.length :: e.salt ++ e.iterations :: e.memory :: e.data

/-- Decoder matching `encFileBytes`; rejects input that is too short
(such as the empty list). -/
def decFileBytes : List Nat → Option EncryptedFile
  | [] => none
  | n :: rest =>
    if 2 ≤ (rest.drop n).length then
      some ⟨rest.take n, (rest.drop n).getD 0 0, (rest.drop n).getD 1 0,
        (rest.drop n).drop 2⟩
    else none

/-- A concrete account used to exercise the store model on closed inputs. -/
def sampleAccount : Otti.Account where
  label := "Entry 1"
  secret := [0, 0]
  digits := 6
  otp := .Totp 30
  algorithm := .Sha1
  issuer := some "Provider 1"
  meta := ⟨["Tag 1"]⟩
  extras := []

/-- Concrete store primitives for witnesses: identity compression, a real
`EncryptedFile` codec, key derivation by concatenating password and salt,
and an AEAD that prepends the key and strips / checks it on open. -/
def testPrims (A : List Otti.Account) : StorePrims where
  encodeAccounts := fun _ => some [0]
  decodeAccounts := fun _ => some A
  encodeFile := encFileBytes
  decodeFile := decFileBytes
  compress := fun d => some d
  decompress := fun d => some d
  passwordOk := fun _ => true
  saltOk := fun _ => true
  deriveKey := fun p s _ _ => some (p ++ s)
  aeadSeal := fun k d => some (k ++ d)
  aeadOpen := fun k s =>
    if s.take k.length = k then some (s.drop k.length) else none

end Store

namespace Codec

/-! ## Byte and text codecs

Models of the text conversions the Rust code delegates to libraries:
UTF-8 (`std::str`, `String::from_utf8`), percent-decoding
(`percent_encoding`), Base32 without padding (`data_encoding`) and decimal
integer parsing (`serde` number deserialization). -/

/-- UTF-8 encoding of a single scalar value. -/
def utf8EncodeChar (c : Char) : List Nat :=
  let n := c.toNat
  if n < 0x80 then [n]
  else if n < 0x800 then [0xc0 + n / 0x40, 0x80 + n % 0x40]
  else if n < 0x10000 then
    [0xe0 + n / 0x1000, 0x80 + n / 0x40 % 0x40, 0x80 + n % 0x40]
  else
    [0xf0 + n / 0x40000, 0x80 + n / 0x1000 % 0x40, 0x80 + n / 0x40 % 0x40,
     0x80 + n % 0x40]

/-- Strict UTF-8 decoding (overlong forms, surrogates and values past
U+10FFFF are rejected, like Rust's `str::from_utf8`). -/
def utf8Decode : List Nat → Option (List Char)
  | [] => some []
  | b :: rest =>
    if b < 0x80 then
      (utf8Decode rest).map (fun cs => Char.ofNat b :: cs)
    else if b < 0xc2 then none
    else if b < 0xe0 then
      match rest with
      | b2 :: rest2 =>
        if 0x80 ≤ b2 ∧ b2 < 0xc0 then
          (utf8Decode rest2).map
            (fun cs => Char.ofNat ((b - 0xc0) * 0x40 + (b2 - 0x80)) :: cs)
        else none
      | [] => none
    else if b < 0xf0 then
      match rest with
      | b2 :: b3 :: rest2 =>
        if (0x80 ≤ b2 ∧ b2 < 0xc0) ∧ (0x80 ≤ b3 ∧ b3 < 0xc0) ∧
            0x800 ≤ (b - 0xe0) * 0x1000 + (b2 - 0x80) * 0x40 + (b3 - 0x80) ∧
            ¬(0xd800 ≤ (b - 0xe0) * 0x1000 + (b2 - 0x80) * 0x40 + (b3 - 0x80) ∧
              (b - 0xe0) * 0x1000 + (b2 - 0x80) * 0x40 + (b3 - 0x80) ≤ 0xdfff)
        then
          (utf8Decode rest2).map (fun cs =>
            Char.ofNat ((b - 0xe0) * 0x1000 + (b2 - 0x80) * 0x40 + (b3 - 0x80))
              :: cs)
        else none
      | _ => none
    else if b < 0xf5 then
      match rest with
      | b2 :: b3 :: b4 :: rest2 =>
        if (0x80 ≤ b2 ∧ b2 < 0xc0) ∧ (0x80 ≤ b3 ∧ b3 < 0xc0) ∧
            (0x80 ≤ b4 ∧ b4 < 0xc0) ∧
            0x10000 ≤ (b - 0xf0) * 0x40000 + (b2 - 0x80) * 0x1000 +
              (b3 - 0x80) * 0x40 + (b4 - 0x80) ∧
            (b - 0xf0) * 0x40000 + (b2 - 0x80) * 0x1000 +
              (b3 - 0x80) * 0x40 + (b4 - 0x80) ≤ 0x10ffff
        then
          (utf8Decode rest2).map (fun cs =>
            Char.ofNat ((b - 0xf0) * 0x40000 + (b2 - 0x80) * 0x1000 +
              (b3 - 0x80) * 0x40 + (b4 - 0x80)) :: cs)
        else none
      | _ => none
    else none

/-- Value of an ASCII hex digit. -/
def hexVal (c : Char) : Option Nat :=
  if '0' ≤ c ∧ c ≤ '9' then some (c.toNat - '0'.toNat)
  else if 'a' ≤ c ∧ c ≤ 'f' then some (c.toNat - 'a'.toNat + 10)
  else if 'A' ≤ c ∧ c ≤ 'F' then some (c.toNat - 'A'.toNat + 10)
  else none

/-- Percent-decoding to bytes (`percent_encoding::percent_decode_str`):
`%XY` with hex digits becomes one byte; a malformed escape is passed
through literally. -/
def percentDecode : List Char → List Nat
  | [] => []
  | '%' :: a :: b :: rest =>
    match hexVal a, hexVal b with
    | some hi, some lo => (hi * 16 + lo) :: percentDecode rest
    | _, _ => 0x25 :: percentDecode (a :: b :: rest)
  | '%' :: rest => 0x25 :: percentDecode rest
  | c :: rest => utf8EncodeChar c ++ percentDecode rest

/-- Value of a Base32 (RFC 4648) alphabet character. -/
def b32Val (c : Char) : Option Nat :=
  if 'A' ≤ c ∧ c ≤ 'Z' then some (c.toNat - 'A'.toNat)
  else if '2' ≤ c ∧ c ≤ '7' then some (c.toNat - '2'.toNat + 26)
  else none

/-- Bit-accumulating worker for no-pad Base32 decoding: rejects inputs
whose trailing bits are non-zero or whose length cannot come from whole
bytes, like `data_encoding::BASE32_NOPAD`. -/
def b32Go : List Char → Nat → Nat → Option (List Nat)
  | [], acc, bits => if 5 ≤ bits ∨ acc ≠ 0 then none else some []
  | c :: cs, acc, bits =>
    match b32Val c with
    | none => none
    | some v =>
      if 3 ≤ bits then
        (b32Go cs ((acc * 32 + v) % 2 ^ (bits + 5 - 8)) (bits + 5 - 8)).map
          (fun bs => (acc * 32 + v) / 2 ^ (bits + 5 - 8) :: bs)
      else
        b32Go cs (acc * 32 + v) (bits + 5)

/-- No-pad Base32 decoding of a string. -/
def base32Decode (s : String) : Option (List Nat) :=
  b32Go s.data 0 0

/-- Value of an ASCII decimal digit. -/
def decDigit (c : Char) : Option Nat :=
  if '0' ≤ c ∧ c ≤ '9' then some (c.toNat - '0'.toNat) else none

/-- Accumulating decimal parser. -/
def parseDecGo : List Char → Nat → Option Nat
  | [], acc => some acc
  | c :: cs, acc =>
    match decDigit c with
    | none => none
    | some d => parseDecGo cs (acc * 10 + d)

/-- Parse a non-empty decimal string. -/
def parseDec (s : String) : Option Nat :=
  match s.data with
  | [] => none
  | cs => parseDecGo cs 0

/-- Parse a `u8`. -/
def parseU8 (s : String) : Option Nat :=
  (parseDec s).bind (fun n => if n < 2 ^ 8 then some n else none)

/-- Parse a `u64`. -/
def parseU64 (s : String) : Option Nat :=
  (parseDec s).bind (fun n => if n < 2 ^ 64 then some n else none)

end Codec

namespace Url

/-! ## otpauth URI parsing (otti-core/src/url.rs)

The `url` crate's generic URL splitting is modelled by a `UrlParts` record
(scheme, optional host, percent-encoded path, query pairs as produced by
`serde_qs`); everything from scheme/host validation onwards is embedded
from `fn parse`. -/

/-- Embeds `enum ParseError` (the payload of `InvalidUrl` / `Deserialize` /
`InvalidUtf8` is dropped). -/
inductive UrlParseError where
  | InvalidUrl
  | InvalidScheme (s : String)
  | MissingHost
  | InvalidHost (s : String)
  | Deserialize
  | InvalidUtf8
deriving DecidableEq

/-- The output of the `url` crate on a well-formed URI: scheme, host,
percent-encoded path, and the query as key-value pairs. -/
structure UrlParts where
  scheme : String
  host : Option String
  path : String
  query : List (String × String)

/-- Embeds the private `enum OtpType` of url.rs. -/
inductive OtpType where
  | Hotp
  | Totp
  | Steam
deriving DecidableEq

/-- Embeds `OtpType::default_digits`. -/
def defaultDigits : OtpType → Nat
  | .Hotp | .Totp => 6
  | .Steam => 5

/-- ASCII lower-casing of one character. -/
def asciiLower (c : Char) : Char :=
  if 'A' ≤ c ∧ c ≤ 'Z' then Char.ofNat (c.toNat + 32) else c

/-- Embeds `str::eq_ignore_ascii_case`. -/
def eqIgnoreAsciiCase (a b : String) : Bool :=
  a.data.map asciiLower == b.data.map asciiLower

/-- Embeds `impl FromStr for OtpType` (failure is `InvalidHost`). -/
def otpTypeFromStr (s : String) : Option OtpType :=
  if eqIgnoreAsciiCase s "hotp" then some .Hotp
  else if eqIgnoreAsciiCase s "totp" then some .Totp
  else if eqIgnoreAsciiCase s "steam" then some .Steam
  else none

/-- Embeds `impl TryFrom<&str> for ParamsAlgorithm`. -/
def algFromStr (s : String) : Option Otti.Algorithm :=
  if eqIgnoreAsciiCase s "sha1" then some .Sha1
  else if eqIgnoreAsciiCase s "sha256" then some .Sha256
  else if eqIgnoreAsciiCase s "sha512" then some .Sha512
  else none

/-- First query value for a key. -/
def qlookup (k : String) : List (String × String) → Option String
  | [] => none
  | (k2, v) :: rest => if k2 = k then some v else qlookup k rest

/-- Embeds `struct Params` after deserialization. -/
structure Params where
  secret : List Nat
  issuer : Option String
  algorithm : Otti.Algorithm
  digits : Option Nat
  period : Nat
  counter : Option Nat
deriving DecidableEq

/-- Embeds the `serde_qs` deserialization of `Params`: `secret` is a
required Base32 string, `algorithm` defaults to SHA-1, `period` to 30,
`digits` and `counter` stay optional. -/
def parseParams (q : List (String × String)) : Option Params :=
  match qlookup "secret" q with
  | none => none
  | some s =>
    match Codec.base32Decode s with
    | none => none
    | some secret =>
      match (match qlookup "algorithm" q with
             | none => some Otti.Algorithm.Sha1
             | some a => algFromStr a) with
      | none => none
      | some algorithm =>
        match (match qlookup "digits" q with
               | none => some none
               | some ds => (Codec.parseU8 ds).map some) with
        | none => none
        | some digits =>
          match (match qlookup "period" q with
                 | none => some 30
                 | some ps => Codec.parseU64 ps) with
          | none => none
          | some period =>
            match (match qlookup "counter" q with
                   | none => some none
                   | some cs => (Codec.parseU64 cs).map some) with
            | none => none
            | some counter =>
              some ⟨secret, qlookup "issuer" q, algorithm, digits, period,
                counter⟩

/-- Embeds `path.strip_prefix('/').unwrap_or(path)`. -/
def dropLeadingSlash : List Char → List Char
  | '/' :: rest => rest
  | l => l

/-- Embeds `label.splitn(2, ':')` restricted to the information `parse`
uses: `some (a, b)` when the input is `a ++ ":" ++ b` with `a`
colon-free, `none` when there is no colon. -/
def splitOnceColon : List Char → Option (List Char × List Char)
  | [] => none
  | ':' :: rest => some ([], rest)
  | c :: rest =>
    match splitOnceColon rest with
    | none => none
    | some (a, b) => some (c :: a, b)

/-- Embeds `pub fn parse` of url.rs on pre-split URL parts. -/
def parseOtpauth (u : UrlParts) : Except UrlParseError Otti.Account :=
  if u.scheme ≠ "otpauth" then .error (.InvalidScheme u.scheme)
  else match u.host with
  | none => .error .MissingHost
  | some h =>
    match otpTypeFromStr h with
    | none => .error (.InvalidHost h)
    | some ty =>
      match parseParams u.query with
      | none => .error .Deserialize
      | some ps =>
        match Codec.utf8Decode
            (Codec.percentDecode (dropLeadingSlash u.path.data)) with
        | none => .error .InvalidUtf8
        | some decoded =>
          let li : String × Option String :=
            match splitOnceColon decoded with
            | some (a, b) => (String.mk b, some (String.mk a))
            | none => (String.mk decoded, none)
          .ok { label := li.1
                secret := ps.secret
                digits := ps.digits.getD (defaultDigits ty)
                otp := match ty with
                  | .Hotp => .Hotp (ps.counter.getD 0)
                  | .Totp => .Totp ps.period
                  | .Steam => .Steam ps.period
                algorithm := ps.algorithm
                issuer := match ps.issuer with
                  | some i => some i
                  | none => li.2
                meta := ⟨[]⟩
                extras := [] }

/-- Modelled from the spec's words for claim C7: after percent-decoding
the slash-stripped path, split once on a colon; when both halves exist the
first is the issuer and the second the label, otherwise the whole string
is the label; an `issuer=` query parameter takes precedence exactly when
present. -/
def labelIssuerSpec (decoded : List Char) (queryIssuer : Option String) :
    String × Option String :=
  match splitOnceColon decoded with
  | some (a, b) =>
    (String.mk b,
     match queryIssuer with
     | some i => some i
     | none => some (String.mk a))
  | none => (String.mk decoded, queryIssuer)

/-- The URL parts of the spec's concrete scenario (b), as the `url` and
`serde_qs` crates deliver them for
`otpauth://totp/Test%20This:me?secret=JBSWY3DPEHPK3PXP&algorithm=sha256&digits=8&period=60`. -/
def fixtureUrl : UrlParts where
  scheme := "otpauth"
  host := some "totp"
  path := "/Test%20This:me"
  query := [("secret", "JBSWY3DPEHPK3PXP"), ("algorithm", "sha256"),
            ("digits", "8"), ("period", "60")]

/-- The account the spec's concrete scenario (b) expects. -/
def fixtureAccount : Otti.Account where
  label := "me"
  secret := [0x48, 0x65, 0x6c, 0x6c, 0x6f, 0x21, 0xde, 0xad, 0xbe, 0xef]
  digits := 8
  otp := .Totp 60
  algorithm := .Sha256
  issuer := some "Test This"
  meta := ⟨[]⟩
  extras := []

end Url

namespace Andotp

/-! ## andOTP adapter (provider-andotp/src/lib.rs)

Only the encrypted-envelope entry (`fn decrypt`) is needed by the claims;
PBKDF2 and AES-256-GCM are abstracted as primitives. -/

/-- Embeds `enum Error` of provider-andotp. -/
inductive AndotpError where
  | InputTooShort
  | AesGcm
  | Json
deriving DecidableEq

/-- Abstraction of PBKDF2-HMAC-SHA1 and AES-256-GCM
(`pbkdf2` and `aes_gcm` crates). -/
structure AndotpPrims where
  pbkdf2 : List Nat → List Nat → Nat → List Nat
  gcmOpen : List Nat → List Nat → List Nat → Option (List Nat)

/-- Big-endian `u32` from the first four bytes (`Buf::get_u32`). -/
def beU32 (l : List Nat) : Nat :=
  l.getD 0 0 * 2 ^ 24 + l.getD 1 0 * 2 ^ 16 + l.getD 2 0 * 2 ^ 8 + l.getD 3 0

/-- Embeds `fn decrypt`: the guard is `data.remaining() <= 28`
(4-byte iterations + 12-byte salt + 12-byte IV); then PBKDF2 and
AES-256-GCM over the remainder. -/
def decrypt (P : AndotpPrims) (data password : List Nat) :
    Except AndotpError (List Nat) :=
  if data.length ≤ 28 then .error .InputTooShort
  else
    match P.gcmOpen (P.pbkdf2 password ((data.drop 4).take 12)
        (beU32 (data.take 4))) ((data.drop 16).take 12) (data.drop 28) with
    | none => .error .AesGcm
    | some buf => .ok buf

/-- Concrete primitives for closed evaluations. -/
def cPrims : AndotpPrims where
  pbkdf2 := fun p s _ => p ++ s
  gcmOpen := fun _ _ c => some c

end Andotp

namespace Authpro

/-! ## Authenticator Pro adapter (provider-authpro/src/lib.rs)

`fn decrypt`, `fn load` and the `Backup` → account conversion are
embedded; PBKDF2, AES-256-CBC and the JSON layer are abstracted. -/

/-- Embeds `enum Error` of provider-authpro (the `UnsupportedOtpType`
payload is dropped). -/
inductive AuthproError where
  | InputTooShort
  | Aes
  | Json
  | UnsupportedOtpType
deriving DecidableEq

/-- Embeds `enum OtpType` (`Hotp = 1, Totp = 2, Motp = 3, Steam = 4`). -/
inductive OtpType where
  | Hotp
  | Totp
  | Motp
  | Steam
deriving DecidableEq

/-- The numeric `repr(u8)` of `OtpType`. -/
def otpTypeRepr : OtpType → Nat
  | .Hotp => 1
  | .Totp => 2
  | .Motp => 3
  | .Steam => 4

/-- Embeds `struct Authenticator` (its `Algorithm` maps one-to-one onto
the core one, so the core type is used directly). -/
structure Authenticator where
  ty : OtpType
  icon : Option String
  issuer : String
  username : String
  secret : List Nat
  algorithm : Otti.Algorithm
  digits : Nat
  period : Nat
  counter : Nat
  ranking : Nat
deriving DecidableEq

/-- Embeds `struct Category`. -/
structure Category where
  id : String
  name : String
  ranking : Nat
deriving DecidableEq

/-- Embeds `struct AuthenticatorCategory`. -/
structure AuthenticatorCategory where
  categoryId : String
  authenticatorSecret : List Nat
  ranking : Nat
deriving DecidableEq

/-- Embeds `struct CustomIcon`. -/
structure CustomIcon where
  id : String
  data : List Nat
deriving DecidableEq

/-- Embeds `struct Backup`. -/
structure Backup where
  authenticators : List Authenticator
  categories : List Category
  authenticatorCategories : List AuthenticatorCategory
  customIcons : List CustomIcon
deriving DecidableEq

/-- Abstraction of PBKDF2-HMAC-SHA1, AES-256-CBC with PKCS#7 unpadding,
and `serde_json` parsing of a `Backup`. -/
structure AuthproPrims where
  pbkdf2 : List Nat → List Nat → Nat → List Nat
  cbcOpen : List Nat → List Nat → List Nat → Option (List Nat)
  parseBackup : List Nat → Option Backup

/-- Embeds `fn decrypt`: the guard is
`data.remaining() <= HEADER.len() + SALT_SIZE + BLOCK_SIZE` (= 52); then
the 16-byte magic header is read (the source inspects it in a branch with
an empty body, so nothing depends on it), followed by the 20-byte salt,
the 16-byte IV, PBKDF2 with 64000 rounds, and CBC decryption of the
remainder. -/
def decrypt (P : AuthproPrims) (data password : List Nat) :
    Except AuthproError (List Nat) :=
  if data.length ≤ 52 then .error .InputTooShort
  else
    let _header := data.take 16
    match P.cbcOpen (P.pbkdf2 password ((data.drop 16).take 20) 64000)
        ((data.drop 36).take 16) (data.drop 52) with
    | none => .error .Aes
    | some buf => .ok buf

/-- Embeds `impl TryFrom<AuthenticatorWithCategories> for Account`:
`Motp` fails with `UnsupportedOtpType`; the linked categories' names
become the tags. -/
def authToAccount (a : Authenticator) (cats : List Category) :
    Except AuthproError Otti.Account :=
  match (match a.ty with
         | .Hotp => some (Otti.Otp.Hotp a.counter)
         | .Totp => some (Otti.Otp.Totp a.period)
         | .Steam => some (Otti.Otp.Steam a.period)
         | .Motp => none) with
  | none => .error .UnsupportedOtpType
  | some otp =>
    .ok { label := a.username
          secret := a.secret
          digits := a.digits
          otp := otp
          algorithm := a.algorithm
          issuer := some a.issuer
          meta := ⟨cats.map (fun c => c.name)⟩
          extras := [] }

/-- Embeds the conversion loop of `fn load`: for each authenticator,
collect the categories linked through `authenticator_categories` rows
whose secret matches, then convert. -/
def backupToAccounts (b : Backup) : Except AuthproError (List Otti.Account) :=
  b.authenticators.mapM (fun auth =>
    authToAccount auth
      ((b.authenticatorCategories.filter
          (fun ac => ac.authenticatorSecret == auth.secret)).filterMap
        (fun ac => b.categories.find? (fun cat => cat.id == ac.categoryId))))

/-- Embeds `pub fn load`: with a password, decrypt then parse the JSON
`Backup`; without one, parse directly; then convert the authenticators. -/
def load (P : AuthproPrims) (data : List Nat) (password : Option (List Nat)) :
    Except AuthproError (List Otti.Account) :=
  match password with
  | some pw =>
    match decrypt P data pw with
    | .error e => .error e
    | .ok buf =>
      match P.parseBackup buf with
      | none => .error .Json
      | some b => backupToAccounts b
  | none =>
    match P.parseBackup data with
    | none => .error .Json
    | some b => backupToAccounts b

/-- Concrete primitives for closed evaluations. -/
def cPrims : AuthproPrims where
  pbkdf2 := fun p s _ => p ++ s
  cbcOpen := fun _ _ c => some c
  parseBackup := fun _ => some ⟨[], [], [], []⟩

end Authpro

namespace Aegis

/-! ## Aegis adapter (provider-aegis/src/lib.rs)

The claims concern the `Entry` ↔ `Account` conversions
(`impl From<&Account> for Entry` and `impl From<Entry> for Account`),
which are embedded directly; the JSON / crypto envelope around them is
not needed. -/

/-- Embeds `struct OtpInfo` (its `Algorithm` maps one-to-one onto the
core one, so the core type is used directly). -/
structure OtpInfo where
  secret : List Nat
  algo : Otti.Algorithm
  digits : Nat
deriving DecidableEq

/-- Embeds `enum EntryType`. -/
inductive EntryType where
  | Hotp (info : OtpInfo) (counter : Nat)
  | Totp (info : OtpInfo) (period : Nat)
  | Steam (info : OtpInfo) (period : Nat)
deriving DecidableEq

/-- Embeds `struct Entry`. -/
structure Entry where
  ty : EntryType
  uuid : String
  name : String
  issuer : String
  group : Option String
  icon : Option (List Nat)
  icon_mime : Option String
  note : String
deriving DecidableEq

/-- UTF-8 bytes of a string (`String::into_bytes`). -/
def strBytes (s : String) : List Nat :=
  s.data.foldr (fun c acc => Codec.utf8EncodeChar c ++ acc) []

/-- `String::from_utf8(v).ok()`. -/
def strOfBytes (l : List Nat) : Option String :=
  (Codec.utf8Decode l).map (fun cs => String.mk cs)

/-- Lookup in the `extras` map. -/
def extrasGet (extras : List (String × List Nat)) (k : String) :
    Option (List Nat) :=
  match extras with
  | [] => none
  | (k2, v) :: rest => if k2 = k then some v else extrasGet rest k

/-- Embeds `impl From<Entry> for otti_core::Account`: the `group` becomes
the only tag (or no tag), and icon / icon MIME / non-empty note are kept
under the `aegis/...` extras keys (listed in the `BTreeMap`'s key
order). -/
def entryToAccount (e : Entry) : Otti.Account :=
  let io : OtpInfo × Otti.Otp :=
    match e.ty with
    | .Hotp info c => (info, .Hotp c)
    | .Totp info p => (info, .Totp p)
    | .Steam info p => (info, .Steam p)
  { label := e.name
    secret := io.1.secret
    digits := io.1.digits
    otp := io.2
    algorithm := io.1.algo
    issuer := some e.issuer
    meta := ⟨match e.group with
             | some g => [g]
             | none => []⟩
    extras :=
      (match e.icon with
       | some i => [("aegis/icon", i)]
       | none => []) ++
      (match e.icon_mime with
       | some m => [("aegis/icon_mime", strBytes m)]
       | none => []) ++
      (if e.note = "" then [] else [("aegis/note", strBytes e.note)]) }

/-- Embeds `impl From<&otti_core::Account> for Entry`: the first tag (if
any) becomes the `group`, the remaining tags are not represented; the
random UUID is passed explicitly. -/
def accountToEntry (uuid : String) (a : Otti.Account) : Entry :=
  { ty :=
      match a.otp with
      | .Hotp c => .Hotp ⟨a.secret, a.algorithm, a.digits⟩ c
      | .Totp w => .Totp ⟨a.secret, a.algorithm, a.digits⟩ w
      | .Steam p => .Steam ⟨a.secret, a.algorithm, a.digits⟩ p
    uuid := uuid
    name := a.label
    issuer := a.issuer.getD ""
    group := a.meta.tags.head?
    icon := extrasGet a.extras "aegis/icon"
    icon_mime := (extrasGet a.extras "aegis/icon_mime").bind strOfBytes
    note := ((extrasGet a.extras "aegis/note").bind strOfBytes).getD "" }

/-- A concrete account with two tags, exercising the tag-dropping
behaviour of the Aegis export. -/
def twoTagAccount : Otti.Account where
  label := "Entry 1"
  secret := [0, 0, 0]
  digits := 6
  otp := .Totp 30
  algorithm := .Sha1
  issuer := some "Provider 1"
  meta := ⟨["Tag 1", "Tag 2"]⟩
  extras := []

end Aegis

/-! ## Theorems -/

namespace Gen

/-- A value below `2 ^ n` merges with a multiple of `2 ^ n` by bitwise or
exactly as by addition. -/
theorem or_eq_add_of_lt {k y n : Nat} (hy : y < 2 ^ n) :
    (k * 2 ^ n) ||| y = k * 2 ^ n + y := by
  rw [Nat.mul_comm k (2 ^ n)]
  exact (Nat.mul_add_lt_is_or hy k).symm

/-- Entries read with `getD` from a byte list stay below 256. -/
theorem getD_lt_256 {m : List Nat} (h : ∀ b ∈ m, b < 256) (i : Nat) :
    m.getD i 0 < 256 := by
  rw [List.getD_eq_getElem?_getD]
  by_cases hi : i < m.length
  · rw [List.getElem?_eq_getElem hi]
    exact h _ (List.getElem_mem hi)
  · rw [List.getElem?_eq_none (by omega)]
    decide

/-- The masked-shift-or combination of `fn digit` equals the big-endian
arithmetic value reduced mod `2 ^ 31`, for byte-sized inputs. -/
theorem lor_eq_add_bytes {a b c e : Nat} (hb : b < 256) (hc : c < 256)
    (he : e < 256) :
    ((a &&& 0x7f) <<< 24) ||| (b <<< 16) ||| (c <<< 8) ||| e
      = (a * 2 ^ 24 + b * 2 ^ 16 + c * 2 ^ 8 + e) % 2 ^ 31 := by
  have h127 : a &&& 0x7f = a % 2 ^ 7 := by
    have h := Nat.and_pow_two_sub_one_eq_mod a 7
    norm_num at h ⊢
    exact h
  rw [Nat.shiftLeft_eq, Nat.shiftLeft_eq, Nat.shiftLeft_eq, h127]
  have e1 : (a % 2 ^ 7) * 2 ^ 24 ||| b * 2 ^ 16
      = (a % 2 ^ 7) * 2 ^ 24 + b * 2 ^ 16 :=
    or_eq_add_of_lt (n := 24) (by norm_num; omega)
  rw [e1]
  have r2 : (a % 2 ^ 7) * 2 ^ 24 + b * 2 ^ 16
      = ((a % 2 ^ 7) * 2 ^ 8 + b) * 2 ^ 16 := by ring
  rw [r2]
  have e2 : ((a % 2 ^ 7) * 2 ^ 8 + b) * 2 ^ 16 ||| c * 2 ^ 8
      = ((a % 2 ^ 7) * 2 ^ 8 + b) * 2 ^ 16 + c * 2 ^ 8 :=
    or_eq_add_of_lt (n := 16) (by norm_num; omega)
  rw [e2]
  have r3 : ((a % 2 ^ 7) * 2 ^ 8 + b) * 2 ^ 16 + c * 2 ^ 8
      = ((a % 2 ^ 7) * 2 ^ 16 + b * 2 ^ 8 + c) * 2 ^ 8 := by ring
  rw [r3]
  have e3 : ((a % 2 ^ 7) * 2 ^ 16 + b * 2 ^ 8 + c) * 2 ^ 8 ||| e
      = ((a % 2 ^ 7) * 2 ^ 16 + b * 2 ^ 8 + c) * 2 ^ 8 + e :=
    or_eq_add_of_lt (n := 8) he
  rw [e3]
  have ha7 : a % 2 ^ 7 = a % 128 := by norm_num
  rw [ha7]
  norm_num
  omega

/-- `fn digit` computes the spec's dynamic truncation followed by the
decimal reduction, for byte-sized inputs. -/
theorem digit_eq_spec {m : List Nat} (h : ∀ b ∈ m, b < 256) (d : Nat) :
    digit m d = dynamicTruncationSpec m % 10 ^ d := by
  simp only [digit, dynamicTruncationSpec]
  exact congrArg (· % 10 ^ d)
    (lor_eq_add_bytes (getD_lt_256 h _) (getD_lt_256 h _) (getD_lt_256 h _))

end Gen

/-- Claim C5: for every (abstract) HMAC, key, counter and digit count `d`,
the HOTP code keeps only the first 20 bytes of the MAC over the 8-byte
big-endian counter, takes `offset = mac[19] & 0x0F`, reads a big-endian
32-bit integer at the offset with the high bit masked, and reduces it mod
`10 ^ d`; on the 20-byte fixture with `d = 6` the result is 872921. -/
theorem c5_hotp_derivation (hmac : List Nat → List Nat → List Nat)
    (key : List Nat) (counter d : Nat)
    (h : ∀ x ∈ hmac key (Gen.u64BeBytes counter), x < 256) :
    Gen.generate_hotp hmac key counter d
      = Gen.dynamicTruncationSpec
          ((hmac key (Gen.u64BeBytes counter)).take 20) % 10 ^ d ∧
    Gen.digit Gen.fixtureMac 6 = 872921 := by
  constructor
  · exact Gen.digit_eq_spec (fun x hx => h x (List.mem_of_mem_take hx)) d
  · decide

/-- Witness for C5 at the constant fixture HMAC, empty key, counter 0. -/
theorem c5_hotp_derivation_witness :
    (∀ x ∈ Gen.fixtureHmac [] (Gen.u64BeBytes 0), x < 256) ∧
    (Gen.generate_hotp Gen.fixtureHmac [] 0 6
        = Gen.dynamicTruncationSpec
            ((Gen.fixtureHmac [] (Gen.u64BeBytes 0)).take 20) % 10 ^ 6 ∧
      Gen.digit Gen.fixtureMac 6 = 872921) :=
  ⟨by decide, c5_hotp_derivation Gen.fixtureHmac [] 0 6 (by decide)⟩

/-- Counterexample to claim C4 as stated: on the fixture MAC with
`d = 5`, the Steam code produced by the source does not equal the code
built from the raw masked 31-bit truncated integer, because the source
starts from the value already reduced mod `10 ^ d`. -/
theorem c4_steam_counterexample :
    Gen.generate_steam Gen.fixtureHmac [] 0 5
      ≠ Gen.steamCode 5
          (Gen.dynamicTruncationSpec
            ((Gen.fixtureHmac [] (Gen.u64BeBytes 0)).take 20)) := by
  decide

/-- Claim C4 (amended): the Steam code starts from the masked
dynamically-truncated integer reduced mod `10 ^ d` (the HOTP code), then
`d` times emits `STEAM_CHARS[code % 26]` and divides the code by 26; the
alphabet is exactly the 26 listed characters. -/
theorem c4_steam_generation (hmac : List Nat → List Nat → List Nat)
    (key : List Nat) (counter d : Nat)
    (h : ∀ x ∈ hmac key (Gen.u64BeBytes counter), x < 256) :
    Gen.generate_steam hmac key counter d
      = Gen.steamCode d
          (Gen.dynamicTruncationSpec
            ((hmac key (Gen.u64BeBytes counter)).take 20) % 10 ^ d) ∧
    Gen.STEAM_CHARS
      = ['2', '3', '4', '5', '6', '7', '8', '9', 'B', 'C', 'D', 'F', 'G',
         'H', 'J', 'K', 'M', 'N', 'P', 'Q', 'R', 'T', 'V', 'W', 'X', 'Y'] := by
  constructor
  · unfold Gen.generate_steam Gen.generate_hotp Gen.mac
    rw [Gen.digit_eq_spec (fun x hx => h x (List.mem_of_mem_take hx)) d]
  · rfl

/-- Witness for the amended C4 at the constant fixture HMAC. -/
theorem c4_steam_generation_witness :
    (∀ x ∈ Gen.fixtureHmac [] (Gen.u64BeBytes 0), x < 256) ∧
    (Gen.generate_steam Gen.fixtureHmac [] 0 5
        = Gen.steamCode 5
            (Gen.dynamicTruncationSpec
              ((Gen.fixtureHmac [] (Gen.u64BeBytes 0)).take 20) % 10 ^ 5) ∧
      Gen.STEAM_CHARS
        = ['2', '3', '4', '5', '6', '7', '8', '9', 'B', 'C', 'D', 'F', 'G',
           'H', 'J', 'K', 'M', 'N', 'P', 'Q', 'R', 'T', 'V', 'W', 'X',
           'Y']) :=
  ⟨by decide, c4_steam_generation Gen.fixtureHmac [] 0 5 (by decide)⟩

namespace Store

/-- The witness codec for `EncryptedFile` round-trips. -/
theorem decFile_encFile (e : EncryptedFile) :
    decFileBytes (encFileBytes e) = some e := by
  cases e with
  | mk salt iters mem data =>
    have hd : List.drop salt.length (salt ++ iters :: mem :: data)
        = iters :: mem :: data := List.drop_left salt _
    have ht : List.take salt.length (salt ++ iters :: mem :: data)
        = salt := List.take_left salt _
    simp [encFileBytes, decFileBytes, hd, ht]

/-- Inversion of a successful `fn encrypt`. -/
theorem encryptFile_ok_elim {P : StorePrims} {d p salt : List Nat}
    {ef : EncryptedFile} (h : encryptFile P d p salt = .ok ef) :
    P.passwordOk p = true ∧ ∃ key sealed,
      P.deriveKey p salt 3 (1 <<< 16) = some key ∧
      P.aeadSeal key d = some sealed ∧
      ef = ⟨salt, 3, 1 <<< 16, sealed⟩ := by
  unfold encryptFile at h
  split at h
  · exact Except.noConfusion h
  next hpw =>
    split at h
    · exact Except.noConfusion h
    next key hkey =>
      split at h
      · exact Except.noConfusion h
      next sealed hsealed =>
        refine ⟨?_, key, sealed, hkey, hsealed, ?_⟩
        · revert hpw; cases P.passwordOk p <;> simp
        · cases h; rfl

/-- Inversion of a successful `fn seal`. -/
theorem seal_ok_elim {P : StorePrims} {A : List Otti.Account}
    {p salt out : List Nat} (h : storeSeal P A p salt = .ok out) :
    ∃ d c key sealed,
      P.encodeAccounts A = some d ∧ P.compress d = some c ∧
      P.passwordOk p = true ∧
      P.deriveKey p salt 3 (1 <<< 16) = some key ∧
      P.aeadSeal key c = some sealed ∧
      out = [1, 0] ++ P.encodeFile ⟨salt, 3, 1 <<< 16, sealed⟩ := by
  unfold storeSeal at h
  split at h
  · exact Except.noConfusion h
  next d henc =>
    split at h
    · exact Except.noConfusion h
    next c hcp =>
      split at h
      · exact Except.noConfusion h
      next ef hef =>
        obtain ⟨hpw, key, sealed, hkey, hsealed, rfl⟩ := encryptFile_ok_elim hef
        cases h
        exact ⟨d, c, key, sealed, henc, hcp, hpw, hkey, hsealed, rfl⟩

/-- `fn decrypt` yields `InvalidPassword` exactly when password, salt and
key derivation pass but the AEAD open fails. -/
theorem decryptFile_invalid_iff (P : StorePrims) (e : EncryptedFile)
    (p : List Nat) :
    decryptFile P e p = .error .InvalidPassword ↔
    P.passwordOk p = true ∧ P.saltOk e.salt = true ∧
    ∃ key, P.deriveKey p e.salt e.iterations e.memory = some key ∧
      P.aeadOpen key e.data = none := by
  unfold decryptFile
  cases hpw : P.passwordOk p with
  | false => simp
  | true =>
    cases hso : P.saltOk e.salt with
    | false => simp
    | true =>
      simp only [Bool.not_true, Bool.false_eq_true, if_false]
      cases hk : P.deriveKey p e.salt e.iterations e.memory with
      | none => simp
      | some key =>
        cases ho : P.aeadOpen key e.data with
        | none => simp [ho]
        | some d => simp [ho]

/-- `fn read_version` never reports `InvalidPassword`. -/
theorem readVersion_not_invalid (file : List Nat) :
    readVersion file ≠ .error .InvalidPassword := by
  unfold readVersion versionTryFrom
  match file with
  | [] => simp
  | [b] => simp
  | b0 :: b1 :: rest =>
    by_cases h : b0 + 256 * b1 = 1 <;> simp [h]

end Store

/-- Claim C1: sealing an account list with a password and opening the
resulting store file with the same password succeeds and returns an equal
account list (secrets are raw byte lists, so account equality compares
them by bytes).  The external primitives are abstracted; their round-trip
laws are the stated hypotheses. -/
theorem c1_seal_open_roundtrip (P : Store.StorePrims)
    (A : List Otti.Account) (p salt out : List Nat)
    (hseal : Store.storeSeal P A p salt = .ok out)
    (hsaltok : P.saltOk salt = true)
    (hfile : ∀ e, P.decodeFile (P.encodeFile e) = some e)
    (hcomp : ∀ d c, P.compress d = some c → P.decompress c = some d)
    (haead : ∀ k d s, P.aeadSeal k d = some s → P.aeadOpen k s = some d)
    (hacc : ∀ d, P.encodeAccounts A = some d → P.decodeAccounts d = some A) :
    Store.storeOpen P out p = .ok A := by
  obtain ⟨d, c, key, sealed, henc, hcp, hpw, hkey, hsealed, rfl⟩ :=
    Store.seal_ok_elim hseal
  rw [show (1 <<< 16 : Nat) = 65536 from rfl] at hkey
  have h1 : Store.readVersion
      (1 :: 0 :: P.encodeFile ⟨salt, 3, 65536, sealed⟩) = .ok .V1 := rfl
  simp [Store.storeOpen, h1, hfile, Store.decryptFile, hpw, hsaltok, hkey,
        haead _ _ _ hsealed, hcomp _ _ hcp, hacc _ henc]

/-- Witness for C1 on the concrete test primitives. -/
theorem c1_seal_open_roundtrip_witness :
    Store.storeSeal (Store.testPrims [Store.sampleAccount])
        [Store.sampleAccount] [7] [5]
      = .ok [1, 0, 1, 5, 3, 65536, 7, 5, 0] ∧
    Store.storeOpen (Store.testPrims [Store.sampleAccount])
        [1, 0, 1, 5, 3, 65536, 7, 5, 0] [7] = .ok [Store.sampleAccount] :=
  ⟨rfl,
   c1_seal_open_roundtrip (Store.testPrims [Store.sampleAccount])
     [Store.sampleAccount] [7] [5] [1, 0, 1, 5, 3, 65536, 7, 5, 0] rfl rfl
     (fun e => Store.decFile_encFile e)
     (fun d c h => by cases h; rfl)
     (fun k d s h => by
       cases h
       simp [Store.testPrims, List.take_left, List.drop_left])
     (fun d h => by cases h; rfl)⟩

/-- Claim C2: opening the sealed file with a different password fails
with `InvalidPassword` (not with a decode or decompression error).  The
wrong password is characterised abstractly: it passes the password and
key-derivation layers but its derived key does not authenticate
ciphertexts sealed under the right key. -/
theorem c2_wrong_password (P : Store.StorePrims) (A : List Otti.Account)
    (p p' salt out k k' : List Nat)
    (hseal : Store.storeSeal P A p salt = .ok out)
    (hfile : ∀ e, P.decodeFile (P.encodeFile e) = some e)
    (hsaltok : P.saltOk salt = true)
    (hpw' : P.passwordOk p' = true)
    (hk' : P.deriveKey p' salt 3 (1 <<< 16) = some k')
    (hk : P.deriveKey p salt 3 (1 <<< 16) = some k)
    (hfail : ∀ d s, P.aeadSeal k d = some s → P.aeadOpen k' s = none) :
    Store.storeOpen P out p' = .error Store.StoreError.InvalidPassword := by
  obtain ⟨d, c, key, sealed, henc, hcp, hpw, hkey, hsealed, rfl⟩ :=
    Store.seal_ok_elim hseal
  have hkk : key = k := by
    rw [hk] at hkey
    exact (Option.some.injEq _ _).mp hkey.symm
  subst hkk
  rw [show (1 <<< 16 : Nat) = 65536 from rfl] at hk'
  have h1 : Store.readVersion
      (1 :: 0 :: P.encodeFile ⟨salt, 3, 65536, sealed⟩) = .ok .V1 := rfl
  simp [Store.storeOpen, h1, hfile, Store.decryptFile, hpw', hsaltok, hk',
        hfail _ _ hsealed]

/-- Witness for C2: password `[8]` instead of `[7]`. -/
theorem c2_wrong_password_witness :
    Store.storeOpen (Store.testPrims [Store.sampleAccount])
        [1, 0, 1, 5, 3, 65536, 7, 5, 0] [8]
      = .error Store.StoreError.InvalidPassword :=
  c2_wrong_password (Store.testPrims [Store.sampleAccount])
    [Store.sampleAccount] [7] [8] [5] [1, 0, 1, 5, 3, 65536, 7, 5, 0]
    [7, 5] [8, 5] rfl (fun e => Store.decFile_encFile e) rfl rfl rfl rfl
    (fun d s h => by cases h; simp [Store.testPrims])

/-- Counterexample to claim C3 as stated: a store file with a valid
version header whose message-pack body fails to decode is reported as
`Decode`, not as `InvalidPassword`. -/
theorem c3_invalid_password_counterexample :
    Store.storeOpen (Store.testPrims []) [1, 0] [7]
      = .error Store.StoreError.Decode ∧
    Store.StoreError.Decode ≠ Store.StoreError.InvalidPassword :=
  ⟨rfl, by decide⟩

/-- Claim C3 (amended): with a valid version header, `open` reports
`InvalidPassword` exactly when the AEAD open fails; a message-pack decode
failure is `Decode`, Argon2 parameter rejection is `Crypto`,
decompression failure is `Io`, and decode failure of the decompressed
payload is `Decode`. -/
theorem c3_invalid_password_only_aead (P : Store.StorePrims)
    (file p : List Nat) :
    Store.storeOpen P file p = .error Store.StoreError.InvalidPassword ↔
    ∃ ef key, Store.readVersion file = .ok .V1 ∧
      P.decodeFile (file.drop 2) = some ef ∧
      P.passwordOk p = true ∧ P.saltOk ef.salt = true ∧
      P.deriveKey p ef.salt ef.iterations ef.memory = some key ∧
      P.aeadOpen key ef.data = none := by
  constructor
  · intro h
    unfold Store.storeOpen at h
    split at h
    · next err heq =>
      injection h with h2
      subst h2
      exact absurd heq (Store.readVersion_not_invalid file)
    · next v heq =>
      cases v
      rw [if_neg (by simp)] at h
      split at h
      · exact absurd h (by simp)
      · next ef hdf =>
        split at h
        · next err hdec =>
          injection h with h2
          subst h2
          obtain ⟨hpw, hso, key, hk, ho⟩ :=
            (Store.decryptFile_invalid_iff P ef p).mp hdec
          exact ⟨ef, key, heq, hdf, hpw, hso, hk, ho⟩
        · next data hdec =>
          split at h
          · exact absurd h (by simp)
          · next plain hz =>
            split at h
            · exact absurd h (by simp)
            · next accounts ha => exact absurd h (by simp)
  · rintro ⟨ef, key, h1, h2, hpw, hso, hk, ho⟩
    have hd : Store.decryptFile P ef p
        = .error Store.StoreError.InvalidPassword :=
      (Store.decryptFile_invalid_iff P ef p).mpr ⟨hpw, hso, key, hk, ho⟩
    simp [Store.storeOpen, h1, h2, hd]

/-- Claim C6: a native store file whose 2-byte little-endian version
header holds `v ≠ 1` makes `open` fail with `UnknownVersion v`, and the
outcome does not depend on any primitive (in particular no key-derivation
work is observable): any two primitive sets and passwords give the same
result. -/
theorem c6_unknown_version (P Q : Store.StorePrims) (p q : List Nat)
    (b0 b1 : Nat) (rest : List Nat) (hne : b0 + 256 * b1 ≠ 1) :
    Store.storeOpen P (b0 :: b1 :: rest) p
      = .error (Store.StoreError.UnknownVersion (b0 + 256 * b1)) ∧
    Store.storeOpen P (b0 :: b1 :: rest) p
      = Store.storeOpen Q (b0 :: b1 :: rest) q := by
  have h : Store.readVersion (b0 :: b1 :: rest)
      = .error (.UnknownVersion (b0 + 256 * b1)) := by
    simp [Store.readVersion, Store.versionTryFrom, hne]
  constructor
  · simp [Store.storeOpen, h]
  · simp [Store.storeOpen, h]

/-- Witness for C6 on the header bytes `[2, 0]`. -/
theorem c6_unknown_version_witness :
    Store.storeOpen (Store.testPrims []) [2, 0] []
      = .error (Store.StoreError.UnknownVersion (2 + 256 * 0)) ∧
    Store.storeOpen (Store.testPrims []) [2, 0] []
      = Store.storeOpen (Store.testPrims [Store.sampleAccount]) [2, 0] [] :=
  c6_unknown_version (Store.testPrims [])
    (Store.testPrims [Store.sampleAccount]) [] [] 2 0 [] (by decide)

namespace Url

/-- The deserialized `issuer` field is the `issuer=` query parameter. -/
theorem parseParams_issuer {q : List (String × String)} {ps : Params}
    (h : parseParams q = some ps) : ps.issuer = qlookup "issuer" q := by
  unfold parseParams at h
  split at h
  · exact Option.noConfusion h
  next s hs =>
    split at h
    · exact Option.noConfusion h
    next secret hsec =>
      split at h
      · exact Option.noConfusion h
      next algorithm halg =>
        split at h
        · exact Option.noConfusion h
        next digits hd =>
          split at h
          · exact Option.noConfusion h
          next period hp =>
            split at h
            · exact Option.noConfusion h
            next counter hc =>
              cases h
              rfl

end Url

/-- Claim C7: on every successfully parsed otpauth URI, the label and
issuer come from stripping the leading slash, percent-decoding the path
as UTF-8 and splitting once on a colon, with the `issuer=` query
parameter taking precedence exactly when present; and the spec's concrete
URI parses to label "me", issuer "Test This", digits 8, `Totp 60`,
SHA-256 and the fixture secret bytes. -/
theorem c7_otpauth_parse (u : Url.UrlParts) (a : Otti.Account)
    (h : Url.parseOtpauth u = .ok a) :
    (∃ decoded,
      Codec.utf8Decode
          (Codec.percentDecode (Url.dropLeadingSlash u.path.data))
        = some decoded ∧
      (a.label, a.issuer)
        = Url.labelIssuerSpec decoded (Url.qlookup "issuer" u.query)) ∧
    Url.parseOtpauth Url.fixtureUrl = .ok Url.fixtureAccount := by
  refine ⟨?_, rfl⟩
  unfold Url.parseOtpauth at h
  split at h
  · exact Except.noConfusion h
  · split at h
    · exact Except.noConfusion h
    next hst =>
      split at h
      · exact Except.noConfusion h
      next ty hty =>
        split at h
        · exact Except.noConfusion h
        next ps hps =>
          split at h
          · exact Except.noConfusion h
          next decoded hdec =>
            refine ⟨decoded, hdec, ?_⟩
            have hiss := Url.parseParams_issuer hps
            cases h
            simp only [Url.labelIssuerSpec]
            cases hsp : Url.splitOnceColon decoded with
            | none =>
              cases hqi : Url.qlookup "issuer" u.query <;>
                simp [hsp, hiss, hqi]
            | some ab =>
              cases ab with
              | mk x y =>
                cases hqi : Url.qlookup "issuer" u.query <;>
                  simp [hsp, hiss, hqi]

/-- Witness for C7 at the fixture URI. -/
theorem c7_otpauth_parse_witness :
    Url.parseOtpauth Url.fixtureUrl = .ok Url.fixtureAccount ∧
    ((∃ decoded,
      Codec.utf8Decode
          (Codec.percentDecode (Url.dropLeadingSlash Url.fixtureUrl.path.data))
        = some decoded ∧
      (Url.fixtureAccount.label, Url.fixtureAccount.issuer)
        = Url.labelIssuerSpec decoded
            (Url.qlookup "issuer" Url.fixtureUrl.query)) ∧
     Url.parseOtpauth Url.fixtureUrl = .ok Url.fixtureAccount) :=
  ⟨rfl, c7_otpauth_parse Url.fixtureUrl Url.fixtureAccount rfl⟩

/-- Counterexample to claim C8 as stated: an andOTP input of exactly 28
bytes (and an AuthPro input of exactly 52 bytes) is not smaller than the
fixed header + salt + IV, yet `decrypt` reports `InputTooShort`, because
the source guards use `<=`. -/
theorem c8_input_too_short_counterexample :
    Andotp.decrypt Andotp.cPrims (List.replicate 28 0) []
      = .error Andotp.AndotpError.InputTooShort ∧
    ¬ (List.replicate 28 0).length < 28 ∧
    Authpro.decrypt Authpro.cPrims (List.replicate 52 0) []
      = .error Authpro.AuthproError.InputTooShort ∧
    ¬ (List.replicate 52 0).length < 52 :=
  ⟨rfl, by decide, rfl, by decide⟩

/-- Claim C8 (amended): each binary-envelope adapter fails with
`InputTooShort` exactly when the input is at most its fixed
header + salt + IV size (andOTP: ≤ 28 bytes, AuthPro: ≤ 52 bytes);
strictly larger inputs never produce `InputTooShort`. -/
theorem c8_input_too_short (Pa : Andotp.AndotpPrims)
    (Pp : Authpro.AuthproPrims) (data pw : List Nat) :
    (Andotp.decrypt Pa data pw = .error Andotp.AndotpError.InputTooShort ↔
      data.length ≤ 28) ∧
    (Authpro.decrypt Pp data pw = .error Authpro.AuthproError.InputTooShort ↔
      data.length ≤ 52) := by
  constructor
  · unfold Andotp.decrypt
    by_cases h : data.length ≤ 28
    · simp [h]
    · cases hg : Pa.gcmOpen (Pa.pbkdf2 pw ((data.drop 4).take 12)
          (Andotp.beU32 (data.take 4))) ((data.drop 16).take 12)
          (data.drop 28) <;> simp [h, hg]
  · unfold Authpro.decrypt
    by_cases h : data.length ≤ 52
    · simp [h]
    · cases hg : Pp.cbcOpen (Pp.pbkdf2 pw ((data.drop 16).take 20) 64000)
          ((data.drop 36).take 16) (data.drop 52) <;> simp [h, hg]

/-- Claim C9: two AuthPro encrypted inputs longer than 52 bytes that
differ only in their first 16 bytes (the magic header) load to the same
result under the same password: the outcome never depends on the magic
header. -/
theorem c9_magic_header_ignored (P : Authpro.AuthproPrims)
    (d1 d2 pw : List Nat) (hlen : 52 < d1.length)
    (hleneq : d1.length = d2.length) (hsuf : d1.drop 16 = d2.drop 16) :
    Authpro.load P d1 (some pw) = Authpro.load P d2 (some pw) := by
  have h36 : d1.drop 36 = d2.drop 36 := by
    rw [show (36 : Nat) = 16 + 20 from rfl, ← List.drop_drop,
      ← List.drop_drop, hsuf]
  have h52 : d1.drop 52 = d2.drop 52 := by
    rw [show (52 : Nat) = 16 + 36 from rfl, ← List.drop_drop,
      ← List.drop_drop, hsuf]
  have hdec : Authpro.decrypt P d1 pw = Authpro.decrypt P d2 pw := by
    unfold Authpro.decrypt
    rw [hleneq, hsuf, h36, h52]
  have hl : ∀ d : List Nat, Authpro.load P d (some pw)
      = (match Authpro.decrypt P d pw with
         | .error e => .error e
         | .ok buf =>
           match P.parseBackup buf with
           | none => .error .Json
           | some b => Authpro.backupToAccounts b) := fun _ => rfl
  rw [hl d1, hl d2, hdec]

/-- Witness for C9: two 53-byte inputs differing in the first byte. -/
theorem c9_magic_header_ignored_witness :
    52 < (0 :: List.replicate 52 0).length ∧
    (0 :: List.replicate 52 0).length = (1 :: List.replicate 52 0).length ∧
    (0 :: List.replicate 52 0).drop 16 = (1 :: List.replicate 52 0).drop 16 ∧
    Authpro.load Authpro.cPrims (0 :: List.replicate 52 0) (some [])
      = Authpro.load Authpro.cPrims (1 :: List.replicate 52 0) (some []) :=
  ⟨by decide, by decide, by decide,
   c9_magic_header_ignored Authpro.cPrims (0 :: List.replicate 52 0)
     (1 :: List.replicate 52 0) [] (by decide) (by decide) (by decide)⟩

/-- Claim C10: for an account with two or more tags, the Aegis export
keeps only the first tag as the entry's `group`, so converting to an
Aegis entry and back yields an account whose tag list is exactly the
first original tag — and hence differs from the original. -/
theorem c10_aegis_drops_tags (a : Otti.Account) (uuid : String)
    (t1 t2 : String) (rest : List String)
    (h : a.meta.tags = t1 :: t2 :: rest) :
    (Aegis.accountToEntry uuid a).group = some t1 ∧
    (Aegis.entryToAccount (Aegis.accountToEntry uuid a)).meta.tags = [t1] ∧
    (Aegis.entryToAccount (Aegis.accountToEntry uuid a)).meta.tags
      ≠ a.meta.tags := by
  have hg : (Aegis.accountToEntry uuid a).group = some t1 := by
    simp [Aegis.accountToEntry, h]
  refine ⟨hg, ?_, ?_⟩
  · simp [Aegis.entryToAccount, hg]
  · rw [h]
    simp [Aegis.entryToAccount, hg]

/-- Witness for C10 on a concrete two-tag account. -/
theorem c10_aegis_drops_tags_witness :
    Aegis.twoTagAccount.meta.tags = "Tag 1" :: "Tag 2" :: [] ∧
    ((Aegis.accountToEntry "u" Aegis.twoTagAccount).group = some "Tag 1" ∧
     (Aegis.entryToAccount
        (Aegis.accountToEntry "u" Aegis.twoTagAccount)).meta.tags
       = ["Tag 1"] ∧
     (Aegis.entryToAccount
        (Aegis.accountToEntry "u" Aegis.twoTagAccount)).meta.tags
       ≠ Aegis.twoTagAccount.meta.tags) :=
  ⟨rfl, c10_aegis_drops_tags Aegis.twoTagAccount "u" "Tag 1" "Tag 2" [] rfl⟩
